import Mathlib

/-!
Shallow embedding of the EDA scripts `src/eda/eda_complete_dataset.py`
(variant A, library-assisted) and `src/eda/eda_simple.py` (variant B,
self-contained).  Strings are modelled as lists of characters; the
character-class predicates model the ASCII fragment exercised by the
scripts.  External library behaviour that the scripts call into
(the NLTK stopword list and the WordNet lemmatizer of variant A) is
modelled by explicit parameters `sw` and `lem`.
-/

namespace EDA

/-- Characters matched by the token class of the regular expression
`\b\w+\b` used in `text_analysis`: alphanumeric characters and the
underscore. -/
def keepWord (c : Char) : Bool := c.isAlphanum || c = '_'

/-- Split a character list into the maximal runs of characters
satisfying `keep`; the second argument accumulates the current run in
reverse.  With `keep := keepWord` this is re.findall with the word-run
pattern, and with `keep := not whitespace` it is Python str.split. -/
def splitRuns (keep : Char → Bool) : List Char → List Char → List (List Char)
  | [], acc => if acc = [] then [] else [acc.reverse]
  | c :: cs, acc =>
    if keep c then splitRuns keep cs (c :: acc)
    else if acc = [] then splitRuns keep cs []
    else acc.reverse :: splitRuns keep cs []

/-- Python `str.lower()` on a character list (ASCII fragment). -/
def lowerL (w : List Char) : List Char := w.map Char.toLower

/-- The token stream of `text_analysis`: re.findall of the word-run
pattern over the lower-cased text. -/
def tokenizeL (cs : List Char) : List (List Char) := splitRuns keepWord (lowerL cs) []

/-- Tokenization of a string, as in `text_analysis`. -/
def tokenize (s : String) : List (List Char) := tokenizeL s.data

/-- One insertion step of `collections.Counter`: increment the count of
`w` if it is already a key, otherwise append it (Python dictionaries
preserve insertion order, so a new key goes to the end). -/
def bump [DecidableEq α] : List (α × Nat) → α → List (α × Nat)
  | [], w => [(w, 1)]
  | (k, c) :: rest, w => if k = w then (k, c + 1) :: rest else (k, c) :: bump rest w

/-- `collections.Counter(ws)` as an insertion-ordered association list. -/
def counter [DecidableEq α] (ws : List α) : List (α × Nat) := ws.foldl bump []

/-- Count looked up in a frequency table (0 when the key is absent). -/
def tableCount [DecidableEq α] (tbl : List (α × Nat)) (w : α) : Nat :=
  match tbl.find? (fun p => decide (p.1 = w)) with
  | some p => p.2
  | none => 0

/-- Insert an entry into a list sorted by count descending, before the
first entry of smaller or equal count: this is the unique stable
position. -/
def insertDesc (p : α × Nat) : List (α × Nat) → List (α × Nat)
  | [] => [p]
  | q :: qs => if q.2 ≤ p.2 then p :: q :: qs else q :: insertDesc p qs

/-- Stable sort by count descending, as performed by
`Counter.most_common` (documented as equivalent to
`sorted(items, key=count, reverse=True)`, a stable sort over the
insertion-ordered items). -/
def sortDesc : List (α × Nat) → List (α × Nat)
  | [] => []
  | p :: ps => insertDesc p (sortDesc ps)

/-- `Counter.most_common(n)`. -/
def most_common (n : Nat) (l : List (α × Nat)) : List (α × Nat) := (sortDesc l).take n

/-- Raw frequency table `word_counts = Counter(words)` of
`text_analysis` (identical in both variants). -/
def word_counts (s : String) : List (List Char × Nat) := counter (tokenize s)

/-- The reported raw top-20, `word_counts.most_common(20)`. -/
def rawTop20 (s : String) : List (List Char × Nat) := most_common 20 (word_counts s)

/-- The hand-written stopword set `common_words` of `eda_simple.py`
(the Python set literal lists `her` twice; as a set it has these
members). -/
def common_words : List (List Char) := List.map String.data
  ["the", "a", "an", "and", "or", "but", "in", "on", "at", "to", "for",
   "of", "with", "by", "is", "are", "was", "were", "be", "been", "have",
   "has", "had", "do", "does", "did", "will", "would", "could", "should",
   "may", "might", "can", "this", "that", "these", "those", "i", "you",
   "he", "she", "it", "we", "they", "me", "him", "her", "us", "them",
   "my", "your", "his", "its", "our", "their", "mine", "yours", "hers",
   "ours", "theirs"]

/-- Filter condition of variant B:
`word.lower() not in common_words and len(word) > 2`. -/
def keepTokenB (w : List Char) : Bool :=
  !(decide (lowerL w ∈ common_words)) && decide (2 < w.length)

/-- The filtered word stream of variant B: kept tokens, lower-cased
again on append (`filtered_words.append(word.lower())`). -/
def filtered_wordsB (toks : List (List Char)) : List (List Char) :=
  (toks.filter keepTokenB).map lowerL

/-- Variant B `filtered_word_counts = Counter(filtered_words)`. -/
def filtered_word_countsB (s : String) : List (List Char × Nat) :=
  counter (filtered_wordsB (tokenize s))

/-- Variant B reported filtered top-20. -/
def filteredTop20B (s : String) : List (List Char × Nat) :=
  most_common 20 (filtered_word_countsB s)

/-- Filter condition of variant A:
`word.lower() not in stop_words and len(word) > 2`, with the NLTK
English stopword set passed in as the parameter `sw`. -/
def keepTokenA (sw : List (List Char)) (w : List Char) : Bool :=
  !(decide (lowerL w ∈ sw)) && decide (2 < w.length)

/-- The filtered word stream of variant A: kept tokens, lemmatized on
append (`filtered_words.append(lemmatizer.lemmatize(word.lower()))`);
the WordNet lemmatizer is the parameter `lem`. -/
def filtered_wordsA (sw : List (List Char)) (lem : List Char → List Char)
    (toks : List (List Char)) : List (List Char) :=
  (toks.filter (keepTokenA sw)).map (fun w => lem (lowerL w))

/-- Variant A `filtered_word_counts = Counter(filtered_words)`. -/
def filtered_word_countsA (sw : List (List Char)) (lem : List Char → List Char)
    (s : String) : List (List Char × Nat) :=
  counter (filtered_wordsA sw lem (tokenize s))

/-- Variant A reported filtered top-20. -/
def filteredTop20A (sw : List (List Char)) (lem : List Char → List Char)
    (s : String) : List (List Char × Nat) :=
  most_common 20 (filtered_word_countsA sw lem s)

/-- One record of the loaded dataset.  A cell holds `none` where the
CSV cell is empty (pandas NaN) and `some s` otherwise. -/
structure Row where
  pmid : Option String
  title : Option String
  abstract : Option String
  source : Option String
  group : Option String
  Manual : Option String
deriving DecidableEq

/-- The pandas DataFrame: the loaded rows plus the derived numeric
columns attached later by assignments such as
assigning to the column title_length (a derived cell is `none` where the source
cell was NaN, since the `.str` accessor propagates NaN). -/
structure DataFrame where
  rows : List Row
  extra : List (String × List (Option Nat))
deriving DecidableEq

/-- Column assignment `df[name] = vals`: overwrite the column if it
exists, otherwise append it (pandas keeps column insertion order). -/
def setCol (df : DataFrame) (name : String) (vals : List (Option Nat)) : DataFrame :=
  if df.extra.any (fun p => p.1 == name) then
    { df with extra := df.extra.map (fun p => if p.1 == name then (name, vals) else p) }
  else
    { df with extra := df.extra ++ [(name, vals)] }

/-- Column read `df[name]` on a derived column; a missing column is a
pandas `KeyError`. -/
def getCol (df : DataFrame) (name : String) : Except String (List (Option Nat)) :=
  match df.extra.find? (fun p => p.1 == name) with
  | some p => Except.ok p.2
  | none => Except.error "KeyError"

/-- Python `str.split()`: maximal runs of non-whitespace characters. -/
def pySplit (s : String) : List (List Char) :=
  splitRuns (fun c => !c.isWhitespace) s.data []

/-- Character length of a cell, `df[col].str.len()` per row. -/
def cellLen (c : Option String) : Option Nat := c.map String.length

/-- Whitespace word count of a cell, `df[col].str.split().str.len()`
per row. -/
def cellWordCount (c : Option String) : Option Nat := c.map (fun s => (pySplit s).length)

/-- The function `analyze_text_columns` (identical in both variants):
attaches the four derived columns and returns the DataFrame.  The only
mutation of `df` is the four column assignments. -/
def analyze_text_columns (df : DataFrame) : DataFrame :=
  let df1 := setCol df "title_length" (df.rows.map (fun r => cellLen r.title))
  let df2 := setCol df1 "abstract_length" (df.rows.map (fun r => cellLen r.abstract))
  let df3 := setCol df2 "title_word_count" (df.rows.map (fun r => cellWordCount r.title))
  let df4 := setCol df3 "abstract_word_count" (df.rows.map (fun r => cellWordCount r.abstract))
  df4

/-- pandas `Series.value_counts()`: counts of the distinct non-missing
values (NaN cells are dropped, `dropna=True` being the default),
sorted by count descending. -/
def value_counts (col : List (Option String)) : List (String × Nat) :=
  sortDesc (counter (col.filterMap id))

/-- Sum of the counts of a frequency table. -/
def tableSum (tbl : List (α × Nat)) : Nat := (tbl.map (fun p => p.2)).sum

/-- pandas `Series.nunique()`: number of distinct non-missing values. -/
def nunique (col : List (Option String)) : Nat := (col.filterMap id).dedup.length

/-- pandas `Series.isnull().sum()` for one column. -/
def missingCount (col : List (Option String)) : Nat :=
  col.countP (fun c => c.isNone)

/-- pandas `Series.mean()` with the default `skipna=True`: `none`
models the NaN returned on an all-missing or empty column. -/
def meanOpt (l : List (Option Nat)) : Option Rat :=
  let v := l.filterMap id
  if v.length = 0 then none else some ((v.sum : Rat) / (v.length : Rat))

/-- Python division `count / N * 100`; a zero denominator raises
`ZeroDivisionError`. -/
def pctDiv (c N : Nat) : Except String Rat :=
  if N = 0 then Except.error "ZeroDivisionError" else Except.ok ((c : Rat) / (N : Rat) * 100)

/-- One breakdown loop of `create_summary_report`: for each
`(value, count)` of a `value_counts` table, compute its percentage.
The division runs only for entries actually present in the table. -/
def breakdownOf (tbl : List (String × Nat)) (N : Nat) :
    Except String (List (String × Nat × Rat)) :=
  tbl.mapM (fun p => (pctDiv p.2 N).map (fun q => (p.1, p.2, q)))

/-- The numbers printed by `create_summary_report` of `eda_simple.py`. -/
structure SummaryReport where
  totalRecords : Nat
  uniquePmids : Nat
  dupPmids : Nat
  nSources : Nat
  nGroups : Nat
  avgTitleLen : Option Rat
  avgAbstractLen : Option Rat
  avgTitleWords : Option Rat
  avgAbstractWords : Option Rat
  sourceBreakdown : List (String × Nat × Rat)
  groupBreakdown : List (String × Nat × Rat)
  missingTitles : Nat
  missingAbstracts : Nat
  missingSources : Nat
  missingGroups : Nat
  missingManual : Nat
deriving DecidableEq

/-- The function `create_summary_report` of `eda_simple.py`, modelled
as the record of numbers it prints; it raises (returns `Except.error`)
exactly where the Python code would. -/
def create_summary_report (df : DataFrame) : Except String SummaryReport := do
  let n := df.rows.length
  let pmids := df.rows.map (fun r => r.pmid)
  let sources := df.rows.map (fun r => r.source)
  let groups := df.rows.map (fun r => r.group)
  let tl ← getCol df "title_length"
  let al ← getCol df "abstract_length"
  let tw ← getCol df "title_word_count"
  let aw ← getCol df "abstract_word_count"
  let sb ← breakdownOf (value_counts sources) n
  let gb ← breakdownOf ((value_counts groups).take 10) n
  pure
    { totalRecords := n
      uniquePmids := nunique pmids
      dupPmids := n - nunique pmids
      nSources := nunique sources
      nGroups := nunique groups
      avgTitleLen := meanOpt tl
      avgAbstractLen := meanOpt al
      avgTitleWords := meanOpt tw
      avgAbstractWords := meanOpt aw
      sourceBreakdown := sb
      groupBreakdown := gb
      missingTitles := missingCount (df.rows.map (fun r => r.title))
      missingAbstracts := missingCount (df.rows.map (fun r => r.abstract))
      missingSources := missingCount sources
      missingGroups := missingCount groups
      missingManual := missingCount (df.rows.map (fun r => r.Manual)) }

/-- `str(cell)` as used by `df[col].astype(str)`: a NaN cell becomes
the literal string `nan`. -/
def strOfCell : Option String → List Char
  | some s => s.data
  | none => "nan".data

/-- The per-record text `df['title'].astype(str) + ' ' + df['abstract'].astype(str)`. -/
def recordTextL (r : Row) : List Char := strOfCell r.title ++ ' ' :: strOfCell r.abstract

/-- Join a list of character lists with single-space separators, as
`' '.join(...)`. -/
def joinSep : List (List Char) → List Char
  | [] => []
  | [x] => x
  | x :: y :: rest => x ++ ' ' :: joinSep (y :: rest)

/-- The corpus `all_text` built by `text_analysis` from the dataset. -/
def corpusOf (rows : List Row) : List Char := joinSep (rows.map recordTextL)

/-- The functions called by `main`, in both variants. -/
inductive Fn
  | load_and_examine_data
  | analyze_text_columns
  | analyze_categorical_columns
  | analyze_pmid_column
  | create_visualizations
  | text_analysis
  | generate_wordcloud
  | statistical_summary
  | create_summary_report
deriving DecidableEq

/-- The components named in the specification. -/
inductive Component
  | loader
  | statsReporter
  | textPipeline
  | vizRenderer
  | summaryAssembler
deriving DecidableEq

/-- The component each function of the scripts belongs to, per the
component descriptions of the specification. -/
def componentOf : Fn → Component
  | Fn.load_and_examine_data => Component.loader
  | Fn.analyze_text_columns => Component.statsReporter
  | Fn.analyze_categorical_columns => Component.statsReporter
  | Fn.analyze_pmid_column => Component.statsReporter
  | Fn.create_visualizations => Component.vizRenderer
  | Fn.text_analysis => Component.textPipeline
  | Fn.generate_wordcloud => Component.vizRenderer
  | Fn.statistical_summary => Component.summaryAssembler
  | Fn.create_summary_report => Component.summaryAssembler

/-- The call sequence of `main` in `eda_simple.py` (lines 279-315). -/
def mainCalls_simple : List Fn :=
  [Fn.load_and_examine_data, Fn.analyze_text_columns, Fn.analyze_categorical_columns,
   Fn.analyze_pmid_column, Fn.create_visualizations, Fn.text_analysis,
   Fn.statistical_summary, Fn.create_summary_report]

/-- The call sequence of `main` in `eda_complete_dataset.py`
(lines 280-317). -/
def mainCalls_complete : List Fn :=
  [Fn.load_and_examine_data, Fn.analyze_text_columns, Fn.analyze_categorical_columns,
   Fn.analyze_pmid_column, Fn.create_visualizations, Fn.text_analysis,
   Fn.generate_wordcloud, Fn.statistical_summary]

/-- Collapse adjacent repetitions, so that a call trace becomes the
sequence of component phases it passes through. -/
def collapse : List Component → List Component
  | [] => []
  | [x] => [x]
  | x :: y :: rest =>
    if x = y then collapse (y :: rest) else x :: collapse (y :: rest)

/-- Component phase sequence of the `main` of a variant. -/
def phases (calls : List Fn) : List Component := collapse (calls.map componentOf)

/-- Keys of a stream in order of first occurrence (the key order of an
insertion-ordered counter). -/
def firstOcc [DecidableEq α] (ws : List α) : List α :=
  ws.foldl (fun acc w => if w ∈ acc then acc else acc ++ [w]) []

/-- Number of missing `title` plus missing `abstract` cells of the
dataset. -/
def missingTextFields (rows : List Row) : Nat :=
  (rows.map (fun r =>
    (if r.title = none then 1 else 0) + (if r.abstract = none then 1 else 0))).sum

/-- The WordNet lemmatizer of variant A maps the plural noun `cats` to
`cat` (suffix detachment, its documented behaviour); this function
records the lemmatizer values on the tokens of the counterexample
corpus and is the identity elsewhere. -/
def lemEx : List Char → List Char :=
  fun w => if w = "cats".data then "cat".data else w

/-- The empty dataset: zero rows, no derived columns yet. -/
def emptyDf : DataFrame := { rows := [], extra := [] }

/-- A one-row dataset whose `source` cell is empty (NaN). -/
def dfMissing : DataFrame :=
  { rows := [{ pmid := some "1", title := some "t", abstract := some "a",
               source := none, group := some "g", Manual := none }],
    extra := [] }

/-- The sample text of the testable property in the specification. -/
def sampleText : String := "The cat sat. The CAT ran."

/-- A one-row dataset whose `abstract` cell is empty (NaN). -/
def rowsMissingAbstract : List Row :=
  [{ pmid := some "1", title := some "brain scan", abstract := none,
     source := some "s", group := some "g", Manual := none }]

end EDA


namespace EDA

theorem tableSum_bump [DecidableEq α] (l : List (α × Nat)) (w : α) :
    tableSum (bump l w) = tableSum l + 1 := by
  induction l with
  | nil => rfl
  | cons p rest ih =>
    obtain ⟨k, c⟩ := p
    by_cases h : k = w <;> simp [bump, h, tableSum] at ih ⊢ <;> omega

theorem tableSum_foldl_bump [DecidableEq α] (ws : List α) :
    ∀ acc : List (α × Nat), tableSum (ws.foldl bump acc) = tableSum acc + ws.length := by
  induction ws with
  | nil => intro acc; simp
  | cons w ws ih =>
    intro acc
    simp only [List.foldl_cons, ih, tableSum_bump, List.length_cons]
    omega

theorem tableSum_counter [DecidableEq α] (ws : List α) :
    tableSum (counter ws) = ws.length := by
  simpa [counter, tableSum] using tableSum_foldl_bump ws []

theorem tableSum_insertDesc (p : α × Nat) (l : List (α × Nat)) :
    tableSum (insertDesc p l) = p.2 + tableSum l := by
  induction l with
  | nil => simp [insertDesc, tableSum]
  | cons q qs ih =>
    by_cases h : q.2 ≤ p.2
    · simp [insertDesc, h, tableSum]
    · simp [insertDesc, h, tableSum] at ih ⊢
      omega

theorem tableSum_sortDesc (l : List (α × Nat)) :
    tableSum (sortDesc l) = tableSum l := by
  induction l with
  | nil => rfl
  | cons p ps ih =>
    rw [sortDesc, tableSum_insertDesc, ih]
    simp [tableSum]

theorem tableSum_value_counts (col : List (Option String)) :
    tableSum (value_counts col) = (col.filterMap id).length := by
  simp [value_counts, tableSum_sortDesc, tableSum_counter]

theorem length_filterMap_of_isSome (col : List (Option String))
    (h : ∀ c ∈ col, c.isSome) : (col.filterMap id).length = col.length := by
  induction col with
  | nil => rfl
  | cons c cs ih =>
    match c, h c (by simp) with
    | some s, _ =>
      simp only [List.filterMap_cons, id, List.length_cons]
      rw [ih (fun x hx => h x (by simp [hx]))]

end EDA

/-- Claim C2 (counterexample): on the one-row dataset `dfMissing`
whose `source` cell is missing, the reported `source` distribution
counts sum to 0 while the row count is 1, so the counts do not sum to
N: pandas `value_counts` drops NaN cells. -/
theorem source_counts_sum_counterexample :
    EDA.tableSum (EDA.value_counts (EDA.dfMissing.rows.map (fun r => r.source))) = 0 ∧
    EDA.dfMissing.rows.length = 1 ∧
    EDA.tableSum (EDA.value_counts (EDA.dfMissing.rows.map (fun r => r.source))) ≠
      EDA.dfMissing.rows.length := by
  decide

/-- Claim C2 (amended): the `source` and `group` distribution counts
each sum to the number of rows whose cell in that column is
non-missing; in particular they sum to N whenever the column has no
missing values. -/
theorem value_counts_sum_amended (df : EDA.DataFrame) :
    (EDA.tableSum (EDA.value_counts (df.rows.map (fun r => r.source)))
      = ((df.rows.map (fun r => r.source)).filterMap id).length) ∧
    (EDA.tableSum (EDA.value_counts (df.rows.map (fun r => r.group)))
      = ((df.rows.map (fun r => r.group)).filterMap id).length) ∧
    ((∀ r ∈ df.rows, r.source.isSome) →
      EDA.tableSum (EDA.value_counts (df.rows.map (fun r => r.source))) = df.rows.length) ∧
    ((∀ r ∈ df.rows, r.group.isSome) →
      EDA.tableSum (EDA.value_counts (df.rows.map (fun r => r.group))) = df.rows.length) := by
  refine ⟨EDA.tableSum_value_counts _, EDA.tableSum_value_counts _, ?_, ?_⟩
  · intro h
    rw [EDA.tableSum_value_counts, EDA.length_filterMap_of_isSome, List.length_map]
    intro c hc
    obtain ⟨r, hr, rfl⟩ := List.mem_map.mp hc
    exact h r hr
  · intro h
    rw [EDA.tableSum_value_counts, EDA.length_filterMap_of_isSome, List.length_map]
    intro c hc
    obtain ⟨r, hr, rfl⟩ := List.mem_map.mp hc
    exact h r hr

/-- Witness for `value_counts_sum_amended` at the one-row dataset with
all cells present. -/
theorem value_counts_sum_amended_witness :
    (EDA.tableSum (EDA.value_counts
        ((EDA.DataFrame.mk [{ pmid := some "1", title := some "t", abstract := some "a",
                              source := some "s", group := some "g", Manual := some "m" }] []).rows.map
          (fun r => r.source))) =
      (EDA.DataFrame.mk [{ pmid := some "1", title := some "t", abstract := some "a",
                           source := some "s", group := some "g", Manual := some "m" }] []).rows.length) := by
  exact (value_counts_sum_amended
    (EDA.DataFrame.mk [{ pmid := some "1", title := some "t", abstract := some "a",
                         source := some "s", group := some "g", Manual := some "m" }] [])).2.2.1
    (by decide)

/-- Claim C3 (counterexample): in neither variant does `main` pass
through the component phases in the claimed order Loader, Statistics
Reporter, Text Pipeline, Visualization Renderer, Summary Assembler:
`create_visualizations` runs before `text_analysis` in both scripts. -/
theorem main_order_counterexample :
    EDA.phases EDA.mainCalls_simple ≠
      [EDA.Component.loader, EDA.Component.statsReporter, EDA.Component.textPipeline,
       EDA.Component.vizRenderer, EDA.Component.summaryAssembler] ∧
    EDA.phases EDA.mainCalls_complete ≠
      [EDA.Component.loader, EDA.Component.statsReporter, EDA.Component.textPipeline,
       EDA.Component.vizRenderer, EDA.Component.summaryAssembler] := by
  decide

/-- Claim C3 (amended): the components execute strictly sequentially
in the order Loader, Statistics Reporter, Visualization Renderer, Text
Frequency Pipeline, Summary Assembler; in the complete-dataset variant
the Visualization Renderer additionally runs once more (the word
cloud) between the Text Pipeline and the Summary Assembler. -/
theorem main_order_amended :
    EDA.phases EDA.mainCalls_simple =
      [EDA.Component.loader, EDA.Component.statsReporter, EDA.Component.vizRenderer,
       EDA.Component.textPipeline, EDA.Component.summaryAssembler] ∧
    EDA.phases EDA.mainCalls_complete =
      [EDA.Component.loader, EDA.Component.statsReporter, EDA.Component.vizRenderer,
       EDA.Component.textPipeline, EDA.Component.vizRenderer,
       EDA.Component.summaryAssembler] := by
  decide

/-- Claim C4: the text frequency pipeline is a deterministic function
of the input text and stopword set; two runs on identical inputs
report identical raw and filtered top-20 lists in both variants. -/
theorem pipeline_deterministic (s1 s2 : String) (sw1 sw2 : List (List Char))
    (lem : List Char → List Char) (hs : s1 = s2) (hsw : sw1 = sw2) :
    EDA.rawTop20 s1 = EDA.rawTop20 s2 ∧
    EDA.filteredTop20B s1 = EDA.filteredTop20B s2 ∧
    EDA.filteredTop20A sw1 lem s1 = EDA.filteredTop20A sw2 lem s2 := by
  subst hs
  subst hsw
  exact ⟨rfl, rfl, rfl⟩

/-- Witness for `pipeline_deterministic` at a concrete text and
stopword set. -/
theorem pipeline_deterministic_witness :
    EDA.rawTop20 "the cat" = EDA.rawTop20 "the cat" ∧
    EDA.filteredTop20B "the cat" = EDA.filteredTop20B "the cat" ∧
    EDA.filteredTop20A ["the".data] id "the cat" =
      EDA.filteredTop20A ["the".data] id "the cat" :=
  pipeline_deterministic "the cat" "the cat" ["the".data] ["the".data] id rfl rfl

/-- Claim C6: on the empty dataset every modelled statistics and
reporting operation completes without an exception: the summary report
of `eda_simple.py` (run, as in `main`, after `analyze_text_columns`
attached the derived columns) returns `ok` with every count zero and
empty breakdown lists — the percentage divisions inside the breakdown
loops are never executed, so no `ZeroDivisionError` is raised — and
the frequency pipeline reports empty raw and filtered top-20 lists. -/
theorem empty_dataset_ok :
    EDA.create_summary_report (EDA.analyze_text_columns EDA.emptyDf) =
      Except.ok
        { totalRecords := 0, uniquePmids := 0, dupPmids := 0, nSources := 0, nGroups := 0,
          avgTitleLen := none, avgAbstractLen := none, avgTitleWords := none,
          avgAbstractWords := none, sourceBreakdown := [], groupBreakdown := [],
          missingTitles := 0, missingAbstracts := 0, missingSources := 0,
          missingGroups := 0, missingManual := 0 } ∧
    EDA.rawTop20 (String.mk (EDA.corpusOf EDA.emptyDf.rows)) = [] ∧
    EDA.filteredTop20B (String.mk (EDA.corpusOf EDA.emptyDf.rows)) = [] ∧
    (EDA.pySplit (String.mk (EDA.corpusOf EDA.emptyDf.rows))).length = 0 :=
  ⟨rfl, rfl, rfl, rfl⟩

/-- Claim C9: `analyze_text_columns` changes the DataFrame only by
attaching exactly the four derived columns `title_length`,
`abstract_length`, `title_word_count`, `abstract_word_count` (in that
order), each computed per row from `title` or `abstract`; the rows,
and with them every value of the original columns, are unchanged. -/
theorem analyze_text_columns_frame (df : EDA.DataFrame) (h : df.extra = []) :
    (EDA.analyze_text_columns df).rows = df.rows ∧
    (EDA.analyze_text_columns df).extra =
      [("title_length", df.rows.map (fun r => EDA.cellLen r.title)),
       ("abstract_length", df.rows.map (fun r => EDA.cellLen r.abstract)),
       ("title_word_count", df.rows.map (fun r => EDA.cellWordCount r.title)),
       ("abstract_word_count", df.rows.map (fun r => EDA.cellWordCount r.abstract))] := by
  obtain ⟨rows, extra⟩ := df
  simp only at h
  subst h
  exact ⟨rfl, rfl⟩

/-- Witness for `analyze_text_columns_frame` at the concrete one-row
dataset `dfMissing`. -/
theorem analyze_text_columns_frame_witness :
    (EDA.analyze_text_columns EDA.dfMissing).rows = EDA.dfMissing.rows ∧
    (EDA.analyze_text_columns EDA.dfMissing).extra =
      [("title_length", EDA.dfMissing.rows.map (fun r => EDA.cellLen r.title)),
       ("abstract_length", EDA.dfMissing.rows.map (fun r => EDA.cellLen r.abstract)),
       ("title_word_count", EDA.dfMissing.rows.map (fun r => EDA.cellWordCount r.title)),
       ("abstract_word_count", EDA.dfMissing.rows.map (fun r => EDA.cellWordCount r.abstract))] :=
  analyze_text_columns_frame EDA.dfMissing rfl

namespace EDA

theorem char_toNat_ofNat_of_valid {n : Nat} (h : n.isValidChar) :
    (Char.ofNat n).toNat = n := by
  unfold Char.ofNat
  rw [dif_pos h]
  rfl

theorem toLower_eq (c : Char) :
    Char.toLower c = if c.toNat ≥ 65 ∧ c.toNat ≤ 90 then Char.ofNat (c.toNat + 32) else c := rfl

theorem toLower_toLower (c : Char) :
    Char.toLower (Char.toLower c) = Char.toLower c := by
  by_cases h : c.toNat ≥ 65 ∧ c.toNat ≤ 90
  · rw [toLower_eq c, if_pos h]
    have hv : (c.toNat + 32).isValidChar := Or.inl (by omega)
    rw [toLower_eq, char_toNat_ofNat_of_valid hv, if_neg (by omega)]
  · rw [toLower_eq c, if_neg h, toLower_eq c, if_neg h]

end EDA

namespace EDA

theorem mem_splitRuns {P : Char → Prop} (keep : Char → Bool) :
    ∀ (cs acc : List Char), (∀ c ∈ acc, keep c = true ∧ P c) → (∀ c ∈ cs, P c) →
      ∀ w ∈ splitRuns keep cs acc, w ≠ [] ∧ ∀ c ∈ w, keep c = true ∧ P c := by
  intro cs
  induction cs with
  | nil =>
    intro acc hacc _ w hw
    by_cases h : acc = []
    · simp [splitRuns, h] at hw
    · simp only [splitRuns, if_neg h, List.mem_singleton] at hw
      subst hw
      refine ⟨by simpa using h, ?_⟩
      intro c hc
      exact hacc c (List.mem_reverse.mp hc)
  | cons c cs ih =>
    intro acc hacc hcs w hw
    by_cases hk : keep c = true
    · rw [splitRuns, if_pos hk] at hw
      refine ih (c :: acc) ?_ (fun x hx => hcs x (by simp [hx])) w hw
      intro y hy
      rcases List.mem_cons.mp hy with h1 | h1
      · rw [h1]
        exact ⟨hk, hcs c (by simp)⟩
      · exact hacc y h1
    · by_cases ha : acc = []
      · rw [splitRuns, if_neg hk, if_pos ha] at hw
        exact ih [] (by simp) (fun x hx => hcs x (by simp [hx])) w hw
      · rw [splitRuns, if_neg hk, if_neg ha] at hw
        rcases List.mem_cons.mp hw with h1 | h1
        · subst h1
          refine ⟨by simpa using ha, ?_⟩
          intro x hx
          exact hacc x (List.mem_reverse.mp hx)
        · exact ih [] (by simp) (fun x hx => hcs x (by simp [hx])) w h1

theorem tokenizeL_tokens (cs : List Char) :
    ∀ w ∈ tokenizeL cs, w ≠ [] ∧ ∀ c ∈ w, keepWord c = true ∧ Char.toLower c = c := by
  intro w hw
  refine mem_splitRuns keepWord (lowerL cs) [] (by simp) ?_ w hw
  intro c hc
  obtain ⟨x, _, rfl⟩ := List.mem_map.mp hc
  exact toLower_toLower x

theorem lowerL_token (w : List Char) (h : ∀ c ∈ w, Char.toLower c = c) :
    lowerL w = w :=
  (List.map_congr_left h).trans (List.map_id w)

theorem splitRuns_all_keep (keep : Char → Bool) :
    ∀ (l acc : List Char), (l = [] → acc ≠ []) → (∀ c ∈ l, keep c = true) →
      splitRuns keep l acc = [acc.reverse ++ l] := by
  intro l
  induction l with
  | nil =>
    intro acc hne _
    rw [splitRuns, if_neg (hne rfl)]
    simp
  | cons c cs ih =>
    intro acc _ hkeep
    rw [splitRuns, if_pos (hkeep c (by simp))]
    rw [ih (c :: acc) (by simp) (fun x hx => hkeep x (by simp [hx]))]
    simp

theorem tokenizeL_token (w : List Char) (hne : w ≠ [])
    (h : ∀ c ∈ w, keepWord c = true ∧ Char.toLower c = c) :
    tokenizeL w = [w] := by
  unfold tokenizeL
  rw [lowerL_token w (fun c hc => (h c hc).2)]
  rw [splitRuns_all_keep keepWord w [] (fun hl => absurd hl hne) (fun c hc => (h c hc).1)]
  simp

theorem splitRuns_append_delim (keep : Char → Bool) (d : Char) (hd : keep d = false) :
    ∀ (xs acc ys : List Char),
      splitRuns keep (xs ++ d :: ys) acc = splitRuns keep xs acc ++ splitRuns keep ys [] := by
  intro xs
  induction xs with
  | nil =>
    intro acc ys
    by_cases ha : acc = []
    · simp [splitRuns, hd, ha]
    · simp [splitRuns, hd, ha]
  | cons c cs ih =>
    intro acc ys
    by_cases hk : keep c = true
    · simp only [List.cons_append, splitRuns, if_pos hk]
      exact ih (c :: acc) ys
    · by_cases ha : acc = []
      · simp only [List.cons_append, splitRuns, if_neg hk, if_pos ha]
        exact ih [] ys
      · simp only [List.cons_append, splitRuns, if_neg hk, if_neg ha, List.append_eq]
        rw [ih [] ys]

theorem lowerL_append (xs ys : List Char) :
    lowerL (xs ++ ys) = lowerL xs ++ lowerL ys := by
  simp [lowerL]

theorem tokenizeL_append_space (xs ys : List Char) :
    tokenizeL (xs ++ ' ' :: ys) = tokenizeL xs ++ tokenizeL ys := by
  unfold tokenizeL
  have h : lowerL (xs ++ ' ' :: ys) = lowerL xs ++ ' ' :: lowerL ys := by
    simp [lowerL]
  rw [h]
  exact splitRuns_append_delim keepWord ' ' rfl (lowerL xs) [] (lowerL ys)

theorem tokenizeL_joinSep (ls : List (List Char)) :
    tokenizeL (joinSep ls) = (ls.map tokenizeL).flatten := by
  induction ls with
  | nil => rfl
  | cons x ls ih =>
    cases ls with
    | nil => simp [joinSep, tokenizeL]
    | cons y rest =>
      rw [joinSep, tokenizeL_append_space, ih]
      simp

end EDA

namespace EDA

theorem tableCount_nil [DecidableEq α] (v : α) : tableCount ([] : List (α × Nat)) v = 0 := rfl

theorem tableCount_cons [DecidableEq α] (k : α) (c : Nat) (rest : List (α × Nat)) (v : α) :
    tableCount ((k, c) :: rest) v = if k = v then c else tableCount rest v := by
  by_cases h : k = v
  · simp [tableCount, List.find?, h]
  · simp [tableCount, List.find?, h]

theorem tableCount_bump [DecidableEq α] (l : List (α × Nat)) (w v : α) :
    tableCount (bump l w) v = tableCount l v + (if v = w then 1 else 0) := by
  induction l with
  | nil =>
    rw [bump, tableCount_cons]
    simp only [tableCount_nil]
    by_cases h : v = w
    · rw [if_pos h.symm, if_pos h]
    · rw [if_neg (fun hh => h hh.symm), if_neg h]
  | cons p rest ih =>
    obtain ⟨k, c⟩ := p
    by_cases hk : k = w
    · rw [bump, if_pos hk, tableCount_cons, tableCount_cons]
      by_cases hv : k = v
      · rw [if_pos hv, if_pos hv, if_pos (hv.symm.trans hk)]
      · rw [if_neg hv, if_neg hv, if_neg (fun hh => hv (hk.trans hh.symm))]
        omega
    · rw [bump, if_neg hk, tableCount_cons, tableCount_cons]
      by_cases hv : k = v
      · rw [if_pos hv, if_pos hv, if_neg (fun hh => hk (hv.trans hh))]
        omega
      · rw [if_neg hv, if_neg hv, ih]

theorem tableCount_foldl_bump [DecidableEq α] [BEq α] [LawfulBEq α] (ws : List α) :
    ∀ (acc : List (α × Nat)) (v : α),
      tableCount (ws.foldl bump acc) v = tableCount acc v + ws.count v := by
  induction ws with
  | nil => intro acc v; simp
  | cons w ws ih =>
    intro acc v
    rw [List.foldl_cons, ih (bump acc w) v, tableCount_bump, List.count_cons]
    by_cases h : v = w
    · subst h
      simp
      omega
    · have h2 : ¬ w = v := fun hh => h hh.symm
      simp [h, h2]

theorem tableCount_counter [DecidableEq α] [BEq α] [LawfulBEq α] (ws : List α) (v : α) :
    tableCount (counter ws) v = ws.count v := by
  simpa [counter, tableCount_nil] using tableCount_foldl_bump ws [] v

theorem map_fst_bump [DecidableEq α] (l : List (α × Nat)) (w : α) :
    (bump l w).map Prod.fst =
      if w ∈ l.map Prod.fst then l.map Prod.fst else l.map Prod.fst ++ [w] := by
  induction l with
  | nil => simp [bump]
  | cons p rest ih =>
    obtain ⟨k, c⟩ := p
    by_cases hk : k = w
    · subst hk
      simp [bump]
    · rw [bump, if_neg hk]
      by_cases hw : w ∈ rest.map Prod.fst
      · simp only [List.map_cons, ih, if_pos hw]
        rw [if_pos (by simp [hw])]
      · simp only [List.map_cons, ih, if_neg hw]
        have hwk : ¬ w = k := fun hh => hk hh.symm
        rw [if_neg (by simp [hw, hwk])]
        simp

theorem map_fst_foldl_bump [DecidableEq α] (ws : List α) :
    ∀ acc : List (α × Nat),
      (ws.foldl bump acc).map Prod.fst =
        ws.foldl (fun seen w => if w ∈ seen then seen else seen ++ [w]) (acc.map Prod.fst) := by
  induction ws with
  | nil => intro acc; rfl
  | cons w ws ih =>
    intro acc
    rw [List.foldl_cons, List.foldl_cons, ih (bump acc w), map_fst_bump]

theorem map_fst_counter [DecidableEq α] (ws : List α) :
    (counter ws).map Prod.fst = firstOcc ws := by
  simpa [counter, firstOcc] using map_fst_foldl_bump ws []

theorem mem_firstOcc_aux [DecidableEq α] (ws : List α) :
    ∀ (seen : List α) (x : α),
      x ∈ ws.foldl (fun seen w => if w ∈ seen then seen else seen ++ [w]) seen →
        x ∈ seen ∨ x ∈ ws := by
  induction ws with
  | nil => intro seen x hx; exact Or.inl hx
  | cons w ws ih =>
    intro seen x hx
    rw [List.foldl_cons] at hx
    rcases ih _ x hx with h | h
    · by_cases hw : w ∈ seen
      · rw [if_pos hw] at h
        exact Or.inl h
      · rw [if_neg hw] at h
        rcases List.mem_append.mp h with h1 | h1
        · exact Or.inl h1
        · simp at h1
          exact Or.inr (by simp [h1])
    · exact Or.inr (by simp [h])

theorem mem_of_mem_firstOcc [DecidableEq α] {ws : List α} {x : α}
    (h : x ∈ firstOcc ws) : x ∈ ws := by
  rcases mem_firstOcc_aux ws [] x h with h1 | h1
  · simp at h1
  · exact h1

theorem key_mem_of_mem_counter [DecidableEq α] {ws : List α} {p : α × Nat}
    (h : p ∈ counter ws) : p.1 ∈ ws := by
  have hx : p.1 ∈ firstOcc ws := by
    rw [← map_fst_counter]
    exact List.mem_map.mpr ⟨p, h, rfl⟩
  exact mem_of_mem_firstOcc hx

end EDA

namespace EDA

theorem mem_insertDesc (p : α × Nat) (l : List (α × Nat)) :
    ∀ x ∈ insertDesc p l, x = p ∨ x ∈ l := by
  induction l with
  | nil => intro x hx; simp [insertDesc] at hx; exact Or.inl hx
  | cons q qs ih =>
    intro x hx
    by_cases h : q.2 ≤ p.2
    · rw [insertDesc, if_pos h] at hx
      rcases List.mem_cons.mp hx with h1 | h1
      · exact Or.inl h1
      · exact Or.inr h1
    · rw [insertDesc, if_neg h] at hx
      rcases List.mem_cons.mp hx with h1 | h1
      · exact Or.inr (by simp [h1])
      · rcases ih x h1 with h2 | h2
        · exact Or.inl h2
        · exact Or.inr (by simp [h2])

theorem pairwise_insertDesc (p : α × Nat) (l : List (α × Nat))
    (h : l.Pairwise (fun a b => b.2 ≤ a.2)) :
    (insertDesc p l).Pairwise (fun a b => b.2 ≤ a.2) := by
  induction l with
  | nil => simp [insertDesc]
  | cons q qs ih =>
    rcases List.pairwise_cons.mp h with ⟨hq, hqs⟩
    by_cases hc : q.2 ≤ p.2
    · rw [insertDesc, if_pos hc]
      refine List.pairwise_cons.mpr ⟨?_, h⟩
      intro x hx
      rcases List.mem_cons.mp hx with h1 | h1
      · rw [h1]; exact hc
      · exact Nat.le_trans (hq x h1) hc
    · rw [insertDesc, if_neg hc]
      refine List.pairwise_cons.mpr ⟨?_, ih hqs⟩
      intro x hx
      rcases mem_insertDesc p qs x hx with h1 | h1
      · rw [h1]; omega
      · exact hq x h1

theorem pairwise_sortDesc (l : List (α × Nat)) :
    (sortDesc l).Pairwise (fun a b => b.2 ≤ a.2) := by
  induction l with
  | nil => simp [sortDesc]
  | cons p ps ih => exact pairwise_insertDesc p (sortDesc ps) ih

theorem filter_insertDesc (p : α × Nat) (l : List (α × Nat)) (k : Nat) :
    (insertDesc p l).filter (fun q => decide (q.2 = k)) =
      if p.2 = k then p :: l.filter (fun q => decide (q.2 = k))
      else l.filter (fun q => decide (q.2 = k)) := by
  induction l with
  | nil =>
    by_cases h : p.2 = k
    · simp [insertDesc, h]
    · simp [insertDesc, h]
  | cons q qs ih =>
    by_cases hc : q.2 ≤ p.2
    · rw [insertDesc, if_pos hc]
      by_cases h : p.2 = k
      · simp only [List.filter_cons, decide_eq_true_eq, if_pos h]
      · simp only [List.filter_cons, decide_eq_true_eq, if_neg h]
    · rw [insertDesc, if_neg hc]
      by_cases hqk : q.2 = k
      · have hpk : ¬ p.2 = k := by omega
        simp only [List.filter_cons, decide_eq_true_eq, if_pos hqk, ih, if_neg hpk]
      · simp only [List.filter_cons, decide_eq_true_eq, if_neg hqk, ih]

theorem filter_sortDesc (l : List (α × Nat)) (k : Nat) :
    (sortDesc l).filter (fun q => decide (q.2 = k)) = l.filter (fun q => decide (q.2 = k)) := by
  induction l with
  | nil => rfl
  | cons p ps ih =>
    rw [sortDesc, filter_insertDesc]
    by_cases h : p.2 = k
    · rw [if_pos h, ih]
      simp [List.filter_cons, h]
    · rw [if_neg h, ih]
      simp [List.filter_cons, h]

end EDA

namespace EDA

theorem most_common_props [DecidableEq α] (X : List (α × Nat)) (n : Nat) :
    (most_common n X).Pairwise (fun a b => b.2 ≤ a.2) ∧
    ∀ k, ((most_common n X).filter (fun q => decide (q.2 = k))).Sublist
      (X.filter (fun q => decide (q.2 = k))) := by
  constructor
  · exact List.Pairwise.sublist (List.take_sublist n (sortDesc X)) (pairwise_sortDesc X)
  · intro k
    have h1 := (List.take_sublist n (sortDesc X)).filter (fun q => decide (q.2 = k))
    rw [filter_sortDesc X k] at h1
    exact h1

end EDA

/-- Claim C5: every reported top-20 list (raw, variant B filtered,
variant A filtered) is sorted by count descending; entries of equal
count appear as a subsequence of the frequency table, whose key order
is the first-occurrence order of the underlying word stream. -/
theorem top20_sorted_stable (s : String) (sw : List (List Char))
    (lem : List Char → List Char) :
    ((EDA.rawTop20 s).Pairwise (fun a b => b.2 ≤ a.2) ∧
      (∀ k, ((EDA.rawTop20 s).filter (fun q => decide (q.2 = k))).Sublist
        ((EDA.word_counts s).filter (fun q => decide (q.2 = k)))) ∧
      (EDA.word_counts s).map Prod.fst = EDA.firstOcc (EDA.tokenize s)) ∧
    ((EDA.filteredTop20B s).Pairwise (fun a b => b.2 ≤ a.2) ∧
      (∀ k, ((EDA.filteredTop20B s).filter (fun q => decide (q.2 = k))).Sublist
        ((EDA.filtered_word_countsB s).filter (fun q => decide (q.2 = k)))) ∧
      (EDA.filtered_word_countsB s).map Prod.fst =
        EDA.firstOcc (EDA.filtered_wordsB (EDA.tokenize s))) ∧
    ((EDA.filteredTop20A sw lem s).Pairwise (fun a b => b.2 ≤ a.2) ∧
      (∀ k, ((EDA.filteredTop20A sw lem s).filter (fun q => decide (q.2 = k))).Sublist
        ((EDA.filtered_word_countsA sw lem s).filter (fun q => decide (q.2 = k)))) ∧
      (EDA.filtered_word_countsA sw lem s).map Prod.fst =
        EDA.firstOcc (EDA.filtered_wordsA sw lem (EDA.tokenize s))) := by
  refine ⟨⟨?_, ?_, ?_⟩, ⟨?_, ?_, ?_⟩, ⟨?_, ?_, ?_⟩⟩
  · exact (EDA.most_common_props (EDA.word_counts s) 20).1
  · exact (EDA.most_common_props (EDA.word_counts s) 20).2
  · exact EDA.map_fst_counter (EDA.tokenize s)
  · exact (EDA.most_common_props (EDA.filtered_word_countsB s) 20).1
  · exact (EDA.most_common_props (EDA.filtered_word_countsB s) 20).2
  · exact EDA.map_fst_counter (EDA.filtered_wordsB (EDA.tokenize s))
  · exact (EDA.most_common_props (EDA.filtered_word_countsA sw lem s) 20).1
  · exact (EDA.most_common_props (EDA.filtered_word_countsA sw lem s) 20).2
  · exact EDA.map_fst_counter (EDA.filtered_wordsA sw lem (EDA.tokenize s))

/-- Claim C8: tokenization is idempotent on its own (already
lower-cased) output: re-tokenizing the space-joined token stream
returns the token stream, and each individual token re-tokenizes to
itself. -/
theorem tokenize_idempotent (s : String) :
    EDA.tokenizeL (EDA.joinSep (EDA.tokenize s)) = EDA.tokenize s ∧
    ∀ w ∈ EDA.tokenize s, EDA.tokenizeL w = [w] := by
  have htok : ∀ w ∈ EDA.tokenize s, EDA.tokenizeL w = [w] := by
    intro w hw
    obtain ⟨hne, hall⟩ := EDA.tokenizeL_tokens s.data w hw
    exact EDA.tokenizeL_token w hne hall
  refine ⟨?_, htok⟩
  rw [EDA.tokenizeL_joinSep, List.map_congr_left htok]
  induction EDA.tokenize s with
  | nil => rfl
  | cons x xs ih => simpa using ih

/-- Witness for `tokenize_idempotent` at the sample text, with the
per-token part instantiated at the token `cat`. -/
theorem tokenize_idempotent_witness :
    EDA.tokenizeL (EDA.joinSep (EDA.tokenize "The cat sat.")) = EDA.tokenize "The cat sat." ∧
    EDA.tokenizeL ("cat".data) = ["cat".data] :=
  ⟨(tokenize_idempotent "The cat sat.").1,
   (tokenize_idempotent "The cat sat.").2 "cat".data (by decide)⟩

namespace EDA

theorem count_filter_le [BEq α] (p : α → Bool) (l : List α) (a : α) :
    (l.filter p).count a ≤ l.count a :=
  (List.filter_sublist l).count_le a

end EDA

/-- Claim C1 (counterexample): on the corpus `cat cats cats`, with the
variant A lemmatizer behaviour `cats` to `cat` (recorded by `lemEx`)
and an empty stopword set, the filtered table of variant A assigns the
token `cat` count 3 while the raw table assigns it count 1: the
filtered count exceeds the raw count because variant A counts
lemmatized forms. -/
theorem filtered_exceeds_raw_counterexample :
    EDA.tableCount (EDA.filtered_word_countsA [] EDA.lemEx "cat cats cats") "cat".data = 3 ∧
    EDA.tableCount (EDA.word_counts "cat cats cats") "cat".data = 1 ∧
    ¬ (EDA.tableCount (EDA.filtered_word_countsA [] EDA.lemEx "cat cats cats") "cat".data ≤
        EDA.tableCount (EDA.word_counts "cat cats cats") "cat".data) := by
  decide

/-- Claim C1 (amended): in variant B the filtered table assigns every
token a count at most its raw count and contains no token of the
active stopword set `common_words` and no token of length at most 2;
the same holds of variant A whenever the lemmatizer fixes every
filtered token (without that proviso variant A counts lemmatized
forms, which can exceed the raw count of the lemma). -/
theorem filtered_le_raw_amended (s : String) (sw : List (List Char))
    (lem : List Char → List Char)
    (hlem : ∀ w ∈ (EDA.tokenize s).filter (EDA.keepTokenA sw),
      lem (EDA.lowerL w) = EDA.lowerL w) :
    (∀ t, EDA.tableCount (EDA.filtered_word_countsB s) t ≤
      EDA.tableCount (EDA.word_counts s) t) ∧
    (∀ p ∈ EDA.filtered_word_countsB s, p.1 ∉ EDA.common_words ∧ 2 < p.1.length) ∧
    (∀ t, EDA.tableCount (EDA.filtered_word_countsA sw lem s) t ≤
      EDA.tableCount (EDA.word_counts s) t) ∧
    (∀ p ∈ EDA.filtered_word_countsA sw lem s, p.1 ∉ sw ∧ 2 < p.1.length) := by
  have hfix : ∀ w ∈ EDA.tokenize s, EDA.lowerL w = w := fun w hw =>
    EDA.lowerL_token w (fun c hc => ((EDA.tokenizeL_tokens s.data w hw).2 c hc).2)
  have hB : EDA.filtered_wordsB (EDA.tokenize s) =
      (EDA.tokenize s).filter EDA.keepTokenB := by
    unfold EDA.filtered_wordsB
    rw [List.map_congr_left (fun w hw => hfix w (List.mem_of_mem_filter hw))]
    exact List.map_id _
  have hA : EDA.filtered_wordsA sw lem (EDA.tokenize s) =
      (EDA.tokenize s).filter (EDA.keepTokenA sw) := by
    unfold EDA.filtered_wordsA
    rw [List.map_congr_left
      (fun w hw => (hlem w hw).trans (hfix w (List.mem_of_mem_filter hw)))]
    exact List.map_id _
  refine ⟨?_, ?_, ?_, ?_⟩
  · intro t
    rw [EDA.filtered_word_countsB, EDA.word_counts, EDA.tableCount_counter,
      EDA.tableCount_counter, hB]
    exact EDA.count_filter_le _ _ t
  · intro p hp
    rw [EDA.filtered_word_countsB, hB] at hp
    have hkey := EDA.key_mem_of_mem_counter hp
    rcases List.mem_filter.mp hkey with ⟨hmem, hpred⟩
    simp [EDA.keepTokenB] at hpred
    rw [hfix p.1 hmem] at hpred
    exact hpred
  · intro t
    rw [EDA.filtered_word_countsA, EDA.word_counts, EDA.tableCount_counter,
      EDA.tableCount_counter, hA]
    exact EDA.count_filter_le _ _ t
  · intro p hp
    rw [EDA.filtered_word_countsA, hA] at hp
    have hkey := EDA.key_mem_of_mem_counter hp
    rcases List.mem_filter.mp hkey with ⟨hmem, hpred⟩
    simp [EDA.keepTokenA] at hpred
    rw [hfix p.1 hmem] at hpred
    exact hpred

/-- Witness for `filtered_le_raw_amended` at a concrete text,
stopword set and the identity lemmatizer, instantiated at the token
`cat`. -/
theorem filtered_le_raw_amended_witness :
    EDA.tableCount (EDA.filtered_word_countsB "the cat sat") "cat".data ≤
      EDA.tableCount (EDA.word_counts "the cat sat") "cat".data ∧
    EDA.tableCount (EDA.filtered_word_countsA ["the".data] id "the cat sat") "cat".data ≤
      EDA.tableCount (EDA.word_counts "the cat sat") "cat".data :=
  ⟨(filtered_le_raw_amended "the cat sat" ["the".data] id (fun _ _ => rfl)).1 "cat".data,
   (filtered_le_raw_amended "the cat sat" ["the".data] id
      (fun _ _ => rfl)).2.2.1 "cat".data⟩

/-- Claim C7: on the sample text `The cat sat. The CAT ran.` the raw
table assigns `the` and `cat` count 2 each; the filtered output of
variant B excludes `the` and assigns `cat` count 2; and the filtered
output of variant A does the same for any stopword set containing
`the` but not `cat`, `sat`, `ran` (as the NLTK English set does) and
any lemmatizer fixing `cat`, `sat`, `ran` (as the WordNet lemmatizer
does). -/
theorem sample_text_counts (sw : List (List Char)) (lem : List Char → List Char)
    (hthe : "the".data ∈ sw) (hcat : "cat".data ∉ sw) (hsat : "sat".data ∉ sw)
    (hran : "ran".data ∉ sw) (lcat : lem "cat".data = "cat".data)
    (lsat : lem "sat".data = "sat".data) (lran : lem "ran".data = "ran".data) :
    EDA.tableCount (EDA.word_counts EDA.sampleText) "the".data = 2 ∧
    EDA.tableCount (EDA.word_counts EDA.sampleText) "cat".data = 2 ∧
    "the".data ∉ (EDA.filtered_word_countsB EDA.sampleText).map Prod.fst ∧
    EDA.tableCount (EDA.filtered_word_countsB EDA.sampleText) "cat".data = 2 ∧
    "the".data ∉ (EDA.filtered_word_countsA sw lem EDA.sampleText).map Prod.fst ∧
    EDA.tableCount (EDA.filtered_word_countsA sw lem EDA.sampleText) "cat".data = 2 := by
  have htok : EDA.tokenize EDA.sampleText =
      ["the".data, "cat".data, "sat".data, "the".data, "cat".data, "ran".data] := by
    decide
  have e1 : EDA.lowerL "the".data = "the".data := by decide
  have e2 : EDA.lowerL "cat".data = "cat".data := by decide
  have e3 : EDA.lowerL "sat".data = "sat".data := by decide
  have e4 : EDA.lowerL "ran".data = "ran".data := by decide
  have k1 : EDA.keepTokenA sw "the".data = false := by
    simp [EDA.keepTokenA, e1, hthe]
  have k2 : EDA.keepTokenA sw "cat".data = true := by
    simp [EDA.keepTokenA, e2, hcat]
  have k3 : EDA.keepTokenA sw "sat".data = true := by
    simp [EDA.keepTokenA, e3, hsat]
  have k4 : EDA.keepTokenA sw "ran".data = true := by
    simp [EDA.keepTokenA, e4, hran]
  have hstream : EDA.filtered_wordsA sw lem (EDA.tokenize EDA.sampleText) =
      ["cat".data, "sat".data, "cat".data, "ran".data] := by
    rw [htok]
    simp [EDA.filtered_wordsA, List.filter_cons, k1, k2, k3, k4, e2, e3, e4,
      lcat, lsat, lran]
  have hcounts : EDA.filtered_word_countsA sw lem EDA.sampleText =
      EDA.counter ["cat".data, "sat".data, "cat".data, "ran".data] := by
    rw [EDA.filtered_word_countsA, hstream]
  refine ⟨by decide, by decide, by decide, by decide, ?_, ?_⟩
  · rw [hcounts]
    decide
  · rw [hcounts]
    decide

/-- Witness for `sample_text_counts` at the concrete stopword set
containing only `the` and the identity lemmatizer. -/
theorem sample_text_counts_witness :
    EDA.tableCount (EDA.word_counts EDA.sampleText) "the".data = 2 ∧
    EDA.tableCount (EDA.word_counts EDA.sampleText) "cat".data = 2 ∧
    "the".data ∉ (EDA.filtered_word_countsB EDA.sampleText).map Prod.fst ∧
    EDA.tableCount (EDA.filtered_word_countsB EDA.sampleText) "cat".data = 2 ∧
    "the".data ∉ (EDA.filtered_word_countsA ["the".data] id EDA.sampleText).map Prod.fst ∧
    EDA.tableCount (EDA.filtered_word_countsA ["the".data] id EDA.sampleText) "cat".data = 2 :=
  sample_text_counts ["the".data] id (by decide) (by decide) (by decide) (by decide)
    rfl rfl rfl

namespace EDA

theorem count_le_count_map_fix [BEq α] [LawfulBEq α] (l : List α) (f : α → α) (a : α)
    (hf : f a = a) : l.count a ≤ (l.map f).count a := by
  induction l with
  | nil => simp
  | cons x xs ih =>
    rw [List.map_cons, List.count_cons, List.count_cons]
    by_cases h : x = a
    · subst h
      rw [hf]
      omega
    · have hb : (x == a) = false := by simp [h]
      rw [hb, if_neg (by decide : ¬ (false = true))]
      omega

theorem count_nan_record (r : Row) :
    (if r.title = none then 1 else 0) + (if r.abstract = none then 1 else 0) ≤
      (tokenizeL (recordTextL r)).count ("nan".data) := by
  have hsplit : tokenizeL (recordTextL r) =
      tokenizeL (strOfCell r.title) ++ tokenizeL (strOfCell r.abstract) := by
    rw [recordTextL, tokenizeL_append_space]
  rw [hsplit, List.count_append]
  have h1 : (if r.title = none then 1 else 0) ≤
      (tokenizeL (strOfCell r.title)).count ("nan".data) := by
    cases r.title with
    | none =>
      rw [if_pos rfl]
      decide
    | some s => simp
  have h2 : (if r.abstract = none then 1 else 0) ≤
      (tokenizeL (strOfCell r.abstract)).count ("nan".data) := by
    cases r.abstract with
    | none =>
      rw [if_pos rfl]
      decide
    | some s => simp
  omega

theorem count_nan_corpus (rows : List Row) :
    missingTextFields rows ≤ (tokenizeL (corpusOf rows)).count ("nan".data) := by
  rw [corpusOf, tokenizeL_joinSep, List.count_flatten, List.map_map, List.map_map]
  exact List.sum_le_sum (fun r _ => count_nan_record r)

theorem count_le_count_filtered_wordsB (toks : List (List Char)) :
    toks.count ("nan".data) ≤ (filtered_wordsB toks).count ("nan".data) := by
  rw [filtered_wordsB]
  have hkeep : keepTokenB ("nan".data) = true := by decide
  have h1 : (toks.filter keepTokenB).count ("nan".data) = toks.count ("nan".data) :=
    List.count_filter hkeep
  have h2 := count_le_count_map_fix (toks.filter keepTokenB) lowerL ("nan".data)
    (by decide)
  omega

theorem count_le_count_filtered_wordsA (toks : List (List Char))
    (sw : List (List Char)) (lem : List Char → List Char)
    (hsw : "nan".data ∉ sw) (hlem : lem ("nan".data) = "nan".data) :
    toks.count ("nan".data) ≤ (filtered_wordsA sw lem toks).count ("nan".data) := by
  rw [filtered_wordsA]
  have hkeep : keepTokenA sw ("nan".data) = true := by
    simp [keepTokenA, show lowerL ("nan".data) = "nan".data from by decide, hsw]
  have h1 : (toks.filter (keepTokenA sw)).count ("nan".data) = toks.count ("nan".data) :=
    List.count_filter hkeep
  have h2 := count_le_count_map_fix (toks.filter (keepTokenA sw))
    (fun w => lem (lowerL w)) ("nan".data)
    (by
      show lem (lowerL ("nan".data)) = "nan".data
      rw [show lowerL ("nan".data) = "nan".data from by decide, hlem])
  omega

end EDA

/-- Claim C10: missing `title` or `abstract` cells are string-converted
to the literal `nan`, not skipped, when the corpus is built; hence the
token `nan` occurs in the raw frequency table, and in the filtered
tables of both variants (for any stopword set not containing `nan` and
any lemmatizer fixing `nan`, as the real ones do), with count at least
the number of missing title/abstract fields. -/
theorem nan_token_counts (rows : List EDA.Row) (sw : List (List Char))
    (lem : List Char → List Char)
    (hsw : "nan".data ∉ sw) (hlem : lem ("nan".data) = "nan".data) :
    EDA.strOfCell none = "nan".data ∧
    EDA.missingTextFields rows ≤
      EDA.tableCount (EDA.counter (EDA.tokenizeL (EDA.corpusOf rows))) ("nan".data) ∧
    EDA.missingTextFields rows ≤
      EDA.tableCount (EDA.counter
        (EDA.filtered_wordsB (EDA.tokenizeL (EDA.corpusOf rows)))) ("nan".data) ∧
    EDA.missingTextFields rows ≤
      EDA.tableCount (EDA.counter
        (EDA.filtered_wordsA sw lem (EDA.tokenizeL (EDA.corpusOf rows)))) ("nan".data) := by
  have hraw := EDA.count_nan_corpus rows
  refine ⟨rfl, ?_, ?_, ?_⟩
  · rw [EDA.tableCount_counter]
    exact hraw
  · rw [EDA.tableCount_counter]
    exact Nat.le_trans hraw
      (EDA.count_le_count_filtered_wordsB (EDA.tokenizeL (EDA.corpusOf rows)))
  · rw [EDA.tableCount_counter]
    exact Nat.le_trans hraw
      (EDA.count_le_count_filtered_wordsA (EDA.tokenizeL (EDA.corpusOf rows)) sw lem hsw hlem)

/-- Witness for `nan_token_counts` at a one-row dataset with a missing
abstract, the empty stopword set and the identity lemmatizer. -/
theorem nan_token_counts_witness :
    EDA.strOfCell none = "nan".data ∧
    EDA.missingTextFields EDA.rowsMissingAbstract ≤
      EDA.tableCount (EDA.counter
        (EDA.tokenizeL (EDA.corpusOf EDA.rowsMissingAbstract))) ("nan".data) ∧
    EDA.missingTextFields EDA.rowsMissingAbstract ≤
      EDA.tableCount (EDA.counter
        (EDA.filtered_wordsB (EDA.tokenizeL (EDA.corpusOf EDA.rowsMissingAbstract)))) ("nan".data) ∧
    EDA.missingTextFields EDA.rowsMissingAbstract ≤
      EDA.tableCount (EDA.counter
        (EDA.filtered_wordsA [] id
          (EDA.tokenizeL (EDA.corpusOf EDA.rowsMissingAbstract)))) ("nan".data) :=
  nan_token_counts EDA.rowsMissingAbstract [] id (by decide) rfl
